import Mathlib

/-!
# LineBot: the text-command dispatcher of `app.go`

A shallow embedding of the part of `app.go` that turns the text of a chat
message into a reply: `getSearchUrl` and its siblings, `getWikiUrl`,
`getOneImgUrl` and the text-message branch of `handleTask`, together with the
Go library functions they call (`strings.Index`, `strings.Split`,
`strings.Join`, `url.QueryEscape`, and `regexp.FindStringSubmatch` for the one
pattern the program compiles).

Go strings are byte strings.  A string is modelled as the list of its bytes,
each byte a natural number; string constants of the source are written as Lean
string literals and turned into their UTF-8 bytes by `bytes`.
-/

namespace LineBot

/-- A Go `string`: the list of its bytes. -/
abbrev Str := List Nat

/-- UTF-8 encoding of one character. -/
def utf8Char (c : Char) : Str :=
  let n := c.toNat
  if n < 0x80 then [n]
  else if n < 0x800 then [0xC0 + n / 64, 0x80 + n % 64]
  else if n < 0x10000 then [0xE0 + n / 4096, 0x80 + n / 64 % 64, 0x80 + n % 64]
  else [0xF0 + n / 262144, 0x80 + n / 4096 % 64, 0x80 + n / 64 % 64, 0x80 + n % 64]

/-- The bytes of a string constant of the source (Go source files are UTF-8). -/
def bytes (s : String) : Str := s.data.flatMap utf8Char

/-! ## `strings.Index`, `strings.Count`, `strings.Split`, `strings.Join` -/

/-- Scan of `strings.Index`: `i` is the byte offset of the current suffix. -/
def indexFrom (substr : Str) : Str → Nat → Int
  | [], i => if substr.isPrefixOf [] then (i : Int) else -1
  | c :: s, i =>
    if substr.isPrefixOf (c :: s) then (i : Int) else indexFrom substr s (i + 1)

/-- Go `strings.Index(s, substr)`: the byte index of the first instance of
`substr` in `s`, or `-1` when there is none. -/
def Index (s substr : Str) : Int := indexFrom substr s 0

/-- Loop of `strings.Count`: `i := Index(s, substr)`; stop on `-1`, otherwise
count one and go on with `s[i+len(substr):]`.  Each round removes at least one
byte when `substr` is not empty, so `len(s) + 1` rounds are always enough. -/
def countLoop (substr : Str) : Nat → Str → Nat
  | 0, _ => 0
  | fuel + 1, s =>
    let i := Index s substr
    if i = -1 then 0
    else 1 + countLoop substr fuel (s.drop (i.toNat + substr.length))

/-- Go `strings.Count(s, substr)` for a non-empty `substr`: the number of
non-overlapping instances of `substr` in `s`. -/
def Count (s substr : Str) : Nat := countLoop substr (s.length + 1) s

/-- Loop of Go's `genSplit`, with `n` the number of separators still to be cut
at: `m := Index(s, sep)`; on `m < 0` stop, otherwise emit `s[:m]` and go on
with `s[m+len(sep):]`; the rest of the string is the last element. -/
def genSplit (sep : Str) : Nat → Str → List Str
  | 0, s => [s]
  | n + 1, s =>
    let m := Index s sep
    if m < 0 then [s]
    else s.take m.toNat :: genSplit sep n (s.drop (m.toNat + sep.length))

/-- Go `strings.Split(s, sep)` for a non-empty `sep` (the program only ever
splits on `" "`): `genSplit` run for `Count(s, sep)` separators. -/
def Split (s sep : Str) : List Str := genSplit sep (Count s sep) s

/-- Go `strings.Join(elems, sep)`: nothing for no element, the element itself
for one, otherwise the first element followed by `sep` and the next element,
for every further element. -/
def Join : List Str → Str → Str
  | [], _ => []
  | [a], _ => a
  | a :: b :: rest, sep => a ++ (b :: rest).flatMap (fun s => sep ++ s)

/-! ## `url.QueryEscape` -/

/-- Go `shouldEscape(c, encodeQueryComponent)`: ASCII letters and digits and
the marks `-` `_` `.` `~` are kept; the reserved characters and everything
else must be escaped in a query component. -/
def shouldEscape (c : Nat) : Bool :=
  if (97 ≤ c ∧ c ≤ 122) ∨ (65 ≤ c ∧ c ≤ 90) ∨ (48 ≤ c ∧ c ≤ 57) then false
  else if c = 45 ∨ c = 95 ∨ c = 46 ∨ c = 126 then false
  else true

/-- The table `upperhex` of `net/url`. -/
def upperhex : Str := bytes "0123456789ABCDEF"

/-- First loop of Go's `escape`: the pair `(spaceCount, hexCount)`. -/
def escapeCounts : Str → Nat × Nat
  | [] => (0, 0)
  | c :: s =>
    let r := escapeCounts s
    if shouldEscape c then
      if c = 32 then (r.1 + 1, r.2) else (r.1, r.2 + 1)
    else r

/-- Last loop of Go's `escape` in mode `encodeQueryComponent`: a space becomes
`+`, a byte to escape becomes `%` and `upperhex[c>>4]`, `upperhex[c&15]`, any
other byte is copied. -/
def escapeLoop : Str → Str
  | [] => []
  | c :: s =>
    if c = 32 then 43 :: escapeLoop s
    else if shouldEscape c then
      37 :: upperhex.getD (c % 256 / 16) 0 :: upperhex.getD (c % 16) 0 :: escapeLoop s
    else c :: escapeLoop s

/-- Go `escape(s, encodeQueryComponent)`: the string itself when nothing is to
be escaped; the string with each space turned into `+` when only spaces are;
the result of the general loop otherwise. -/
def escape (s : Str) : Str :=
  let counts := escapeCounts s
  if counts.1 = 0 ∧ counts.2 = 0 then s
  else if counts.2 = 0 then s.map (fun c => if c = 32 then 43 else c)
  else escapeLoop s

/-- Go `url.QueryEscape(s)`. -/
def QueryEscape (s : Str) : Str := escape s

/-! ## URL builders (`app.go`, lines 75 to 93) -/

/-- `getSearchUrl` of `app.go`. -/
def getSearchUrl (q : Str) : Str :=
  bytes "http://www.google.co.jp/search?hl=ja&source=hp&q=" ++ QueryEscape q

/-- `getImgSearchUrl` of `app.go`. -/
def getImgSearchUrl (q : Str) : Str := getSearchUrl q ++ bytes "&tbm=isch&tbs=ift:jpg"

/-- `getMovSearchUrl` of `app.go`. -/
def getMovSearchUrl (q : Str) : Str := getSearchUrl q ++ bytes "&tbm=vid"

/-- `getNewsSearchUrl` of `app.go`. -/
def getNewsSearchUrl (q : Str) : Str := getSearchUrl q ++ bytes "&tbm=nws"

/-- `getWikiUrl` of `app.go`. -/
def getWikiUrl (q : Str) : Str := bytes "https://ja.wikipedia.org/wiki/" ++ q

/-! ## The pattern `<img.+?src=\"(.+?)\".+?>` and `FindStringSubmatch`

Go's `regexp` returns the leftmost match and, among the matches that start
there, the one a backtracking search finds first.  The pattern is a sequence of
literals and lazy `.+?` pieces, so the search is written in continuation
style: each piece receives the rest of the pattern as `k`.  All literals are
ASCII, so matching bytes and matching characters agree. -/

/-- A literal `p` of the pattern followed by the rest `k`: the input has to
start with `p`. -/
def lit {α : Type} (p : Str) (k : Str → Option α) (s : Str) : Option α :=
  if p.isPrefixOf s then k (s.drop p.length) else none

/-- A lazy `.+?` followed by the rest `k` of the pattern.  `.` is any byte but
the newline (10).  One byte is consumed, then the rest of the pattern is tried
first, and only when it fails one more byte is consumed.  `acc` collects the
bytes consumed so far and is handed to `k`. -/
def lazyDotPlus {α : Type} (k : Str → Str → Option α) : Str → Str → Option α
  | _, [] => none
  | acc, c :: s =>
    if c = 10 then none
    else
      match k (acc ++ [c]) s with
      | some r => some r
      | none => lazyDotPlus k (acc ++ [c]) s

/-- The pattern matched at the start of `s`: on success the text of the
capture group and the input left after the match. -/
def imgPattern (s : Str) : Option (Str × Str) :=
  lit (bytes "<img")
    (lazyDotPlus
      (fun _ => lit (bytes "src=" ++ [34])
        (lazyDotPlus
          (fun g => lit [34]
            (lazyDotPlus (fun _ => lit (bytes ">") (fun rest => some (g, rest))) []))
          []))
      [])
    s

/-- Go `r.FindStringSubmatch(s)` for the pattern above: the first start
position, from the left, at which the pattern matches; the result holds the
text of the match and the text of the group, and is empty (`nil`) when no
position matches. -/
def FindStringSubmatch : Str → List Str
  | [] => []
  | c :: s =>
    match imgPattern (c :: s) with
    | some (g, rest) => [(c :: s).take ((c :: s).length - rest.length), g]
    | none => FindStringSubmatch s

/-! ## `getOneImgUrl` and `handleTask` -/

/-- What the outbound fetch of `getOneImgUrl` gives for a URL: `client.Get`
fails, or `ioutil.ReadAll` of the body fails, or the body is read. -/
inductive Fetch where
  | getError
  | readError
  | ok (body : Str)
deriving DecidableEq, Repr

/-- `getOneImgUrl` of `app.go`.  `none` stands for `panic(err)`, `some u` for
the returned string. -/
def getOneImgUrl (fetch : Str → Fetch) (q : Str) : Option Str :=
  match fetch (getImgSearchUrl q) with
  | Fetch.getError => none
  | Fetch.readError => none
  | Fetch.ok s =>
    let ret := FindStringSubmatch s
    if ret.length = 2 then some (ret.getD 1 []) else some []

/-- What `handleTask` does with a text message: it sets `obj` to a text
message and replies with it, or leaves `obj` nil and sends nothing, or is
aborted by the panic of `getOneImgUrl`.  `reply msg` carries the string handed
to `linebot.NewTextMessage`; sending it is the work of the SDK. -/
inductive Outcome where
  | reply (msg : Str)
  | noReply
  | panic
deriving DecidableEq, Repr

/-- The marker of line 154. -/
def marker : Str := bytes "とは?"

/-- The separator `" "`. -/
def space : Str := bytes " "

/-- Case labels of line 160. -/
def imgAliases : List Str := [bytes "img", bytes "IMG", bytes "I", bytes "画像"]

/-- Case labels of line 167. -/
def movAliases : List Str := [bytes "mov", bytes "MOV", bytes "M", bytes "動画"]

/-- Case labels of line 169. -/
def searchAliases : List Str :=
  [bytes "search", bytes "S", bytes "ggr", bytes "検索", bytes "ググる"]

/-- Case labels of line 171. -/
def newsAliases : List Str := [bytes "news", bytes "News", bytes "ニュース"]

/-- Case labels of line 173. -/
def wikiAliases : List Str :=
  [bytes "wikipedia", bytes "wiki", bytes "Wikipedia", bytes "Wiki", bytes "W",
   bytes "ウィキペディア", bytes "ウィキ"]

/-- Lines 161 to 166 of `handleTask`: the image branch for the query `q`. -/
def imgBranch (fetch : Str → Fetch) (q : Str) : Outcome :=
  match getOneImgUrl fetch q with
  | none => Outcome.panic
  | some url =>
    if url ≠ [] then Outcome.reply url else Outcome.reply (getImgSearchUrl q)

/-- Lines 152 to 176 of `handleTask` for a message event that carries a text
message; `text` is the value of `strings.TrimSpace(msg.Text)` and `fetch` the
outbound fetch.  A Go `switch` tries its cases from top to bottom. -/
def handleTask (fetch : Str → Fetch) (text : Str) : Outcome :=
  let slice := Split text space
  let idx := Index text marker
  if idx ≠ -1 then Outcome.reply (getSearchUrl (text.take idx.toNat))
  else if slice.length ≥ 2 then
    if slice.getD 0 [] ∈ imgAliases then imgBranch fetch (Join (slice.drop 1) space)
    else if slice.getD 0 [] ∈ movAliases then
      Outcome.reply (getMovSearchUrl (Join (slice.drop 1) space))
    else if slice.getD 0 [] ∈ searchAliases then
      Outcome.reply (getSearchUrl (Join (slice.drop 1) space))
    else if slice.getD 0 [] ∈ newsAliases then
      Outcome.reply (getNewsSearchUrl (Join (slice.drop 1) space))
    else if slice.getD 0 [] ∈ wikiAliases then
      Outcome.reply (getWikiUrl (slice.getD 1 []))
    else Outcome.noReply
  else Outcome.noReply

/-! ## Encodings named by the specification -/

/-- The bytes the specification lists as copied unchanged: ASCII letters,
digits, and `-` `_` `.` `~`. -/
def unreserved (c : Nat) : Prop :=
  (97 ≤ c ∧ c ≤ 122) ∨ (65 ≤ c ∧ c ≤ 90) ∨ (48 ≤ c ∧ c ≤ 57) ∨
    c = 45 ∨ c = 95 ∨ c = 46 ∨ c = 126

instance unreservedDecidable (c : Nat) : Decidable (unreserved c) := by
  unfold unreserved
  infer_instance

/-- The upper-case hexadecimal digit of a value below 16. -/
def hexDigit (d : Nat) : Nat := if d < 10 then 48 + d else 55 + d

/-- One byte percent-encoded as the specification words it: an unreserved byte
is copied, every other byte, the space included, becomes `%` and its two
hexadecimal digits. -/
def specEncodeByte (c : Nat) : Str :=
  if unreserved c then [c] else [37, hexDigit (c / 16), hexDigit (c % 16)]

/-- Percent-encoding of a string as the specification words it. -/
def specPercentEncode (q : Str) : Str := q.flatMap specEncodeByte

/-- One byte encoded for a query component: an unreserved byte is copied, the
space becomes `+`, every other byte becomes `%` and its two upper-case
hexadecimal digits. -/
def queryEncodeByte (c : Nat) : Str :=
  if unreserved c then [c]
  else if c = 32 then [43]
  else [37, hexDigit (c / 16), hexDigit (c % 16)]

/-- The text of a tag `<img X src="U" Z>`: `<img`, the text `X`, `src="`, the
value `U`, the closing quote, the text `Z`, and `>`. -/
def imgTag (X U Z : Str) : Str :=
  bytes "<img" ++ X ++ bytes "src=" ++ [34] ++ U ++ [34] ++ Z ++ bytes ">"

/-- Scan of a UTF-8 check: `pending` lists the ranges the next bytes of the
current character have to fall in.  With nothing pending a byte starts a
character: `00..7F` stands alone; `C2..DF` asks for one continuation byte
`80..BF`; `E0`, `E1..EC`, `ED`, `EE..EF` ask for two, the first in `A0..BF`,
`80..BF`, `80..9F`, `80..BF`; `F0`, `F1..F3`, `F4` ask for three, the first in
`90..BF`, `80..BF`, `80..8F`; any other byte is not a first byte.  These are
the ranges of Go's `unicode/utf8` (no overlong form, no surrogate, nothing
above `U+10FFFF`). -/
def validUTF8From : List (Nat × Nat) → Str → Bool
  | [], [] => true
  | _ :: _, [] => false
  | r :: pending, b :: s => r.1 ≤ b && b ≤ r.2 && validUTF8From pending s
  | [], b :: s =>
    if b < 0x80 then validUTF8From [] s
    else if 0xC2 ≤ b ∧ b ≤ 0xDF then validUTF8From [(0x80, 0xBF)] s
    else if b = 0xE0 then validUTF8From [(0xA0, 0xBF), (0x80, 0xBF)] s
    else if 0xE1 ≤ b ∧ b ≤ 0xEC then validUTF8From [(0x80, 0xBF), (0x80, 0xBF)] s
    else if b = 0xED then validUTF8From [(0x80, 0x9F), (0x80, 0xBF)] s
    else if 0xEE ≤ b ∧ b ≤ 0xEF then validUTF8From [(0x80, 0xBF), (0x80, 0xBF)] s
    else if b = 0xF0 then validUTF8From [(0x90, 0xBF), (0x80, 0xBF), (0x80, 0xBF)] s
    else if 0xF1 ≤ b ∧ b ≤ 0xF3 then validUTF8From [(0x80, 0xBF), (0x80, 0xBF), (0x80, 0xBF)] s
    else if b = 0xF4 then validUTF8From [(0x80, 0x8F), (0x80, 0xBF), (0x80, 0xBF)] s
    else false

/-- Whether a byte string is valid UTF-8 (Go `utf8.ValidString`).  The text of
a reply is sent JSON-encoded, and only valid UTF-8 goes through that encoding
as it is: a byte that is not valid is replaced by `U+FFFD`. -/
def validUTF8 (s : Str) : Bool := validUTF8From [] s

/-- The aliases the specification lists as the first tokens that are answered,
in its order: image, video, web, news, encyclopedia. -/
def replyAliases : List Str :=
  [bytes "img", bytes "IMG", bytes "I", bytes "画像",
   bytes "mov", bytes "MOV", bytes "M", bytes "動画",
   bytes "search", bytes "S", bytes "ggr", bytes "検索", bytes "ググる",
   bytes "news", bytes "News", bytes "ニュース",
   bytes "wikipedia", bytes "wiki", bytes "Wikipedia", bytes "Wiki", bytes "W",
   bytes "ウィキペディア", bytes "ウィキ"]

/-- Whether an outcome is a reply. -/
def Outcome.isReply : Outcome → Bool
  | Outcome.reply _ => true
  | _ => false

/-! ## Facts about `Index` -/

theorem isPrefixOf_iff (p s : Str) : p.isPrefixOf s = true ↔ p <+: s := by
  simp

theorem indexFrom_eq_neg_one_iff (sub : Str) (s : Str) (i : Nat) :
    indexFrom sub s i = -1 ↔ ¬ sub <:+: s := by
  induction s generalizing i with
  | nil =>
    unfold indexFrom
    by_cases h : sub = []
    · subst h; simp
    · simp [h]
  | cons c s ih =>
    unfold indexFrom
    by_cases hp : sub.isPrefixOf (c :: s) = true
    · rw [if_pos hp]
      have hp2 : sub <+: c :: s := (isPrefixOf_iff _ _).1 hp
      have : sub <:+: c :: s := hp2.isInfix
      constructor
      · intro h; omega
      · intro h; exact absurd this h
    · rw [if_neg hp, ih (i + 1)]
      have hp2 : ¬ sub <+: c :: s := fun h => hp ((isPrefixOf_iff _ _).2 h)
      rw [List.infix_cons_iff]
      tauto

theorem Index_eq_neg_one_iff (s sub : Str) : Index s sub = -1 ↔ ¬ sub <:+: s :=
  indexFrom_eq_neg_one_iff sub s 0

theorem indexFrom_first (sub r : Str) (p : Str) (i : Nat)
    (h : ∀ p1 p2, p = p1 ++ p2 → p2 ≠ [] → ¬ sub <+: p2 ++ sub ++ r) :
    indexFrom sub (p ++ sub ++ r) i = (i : Int) + p.length := by
  induction p generalizing i with
  | nil =>
    have hp : sub.isPrefixOf (sub ++ r) = true :=
      (isPrefixOf_iff _ _).2 (List.prefix_append _ _)
    simp only [List.nil_append, List.length_nil, Nat.cast_zero, add_zero]
    cases hs : sub ++ r with
    | nil => rw [hs] at hp; unfold indexFrom; rw [if_pos hp]
    | cons c s => rw [hs] at hp; unfold indexFrom; rw [if_pos hp]
  | cons c p ih =>
    have hnp : ¬ sub.isPrefixOf (c :: (p ++ sub ++ r)) = true := by
      intro hp
      have := (isPrefixOf_iff _ _).1 hp
      exact h [] (c :: p) rfl (by simp) (by simpa using this)
    have hrec : ∀ p1 p2, p = p1 ++ p2 → p2 ≠ [] → ¬ sub <+: p2 ++ sub ++ r := by
      intro p1 p2 e hne
      exact h (c :: p1) p2 (by rw [e]; rfl) hne
    have e : c :: p ++ sub ++ r = c :: (p ++ sub ++ r) := by simp
    rw [e]
    unfold indexFrom
    rw [if_neg hnp, ih (i + 1) hrec]
    simp only [List.length_cons, Nat.cast_add, Nat.cast_one]
    omega

theorem prefix_of_first (sub p r : Str) (h : ¬ sub <:+: p ++ sub.dropLast) :
    ∀ p1 p2, p = p1 ++ p2 → p2 ≠ [] → ¬ sub <+: p2 ++ sub ++ r := by
  intro p1 p2 e hne hpre
  apply h
  have h1 : p2 ++ sub.dropLast <+: p2 ++ sub ++ r := by
    rw [List.append_assoc]
    apply (List.prefix_append_right_inj p2).2
    exact ( List.dropLast_prefix sub).trans (List.prefix_append _ _)
  have hlen : sub.length ≤ (p2 ++ sub.dropLast).length := by
    have : 0 < p2.length := List.length_pos.2 hne
    simp only [List.length_append, List.length_dropLast]
    omega
  have h2 : sub <+: p2 ++ sub.dropLast := List.prefix_of_prefix_length_le hpre h1 hlen
  obtain ⟨t, ht⟩ := h2
  refine ⟨p1, t, ?_⟩
  rw [e, List.append_assoc p1 p2, ← ht]
  simp

theorem Index_first (sub p r : Str) (h : ¬ sub <:+: p ++ sub.dropLast) :
    Index (p ++ sub ++ r) sub = (p.length : Int) := by
  unfold Index
  rw [indexFrom_first sub r p 0 (prefix_of_first sub p r h)]
  simp


/-! ## Facts about `Split` and `Join` on a one-byte separator -/

theorem singleton_infix_iff_mem (c : Nat) (s : Str) : [c] <:+: s ↔ c ∈ s := by
  constructor
  · rintro ⟨a, b, h⟩
    rw [← h]
    simp
  · intro h
    obtain ⟨a, b, h⟩ := List.append_of_mem h
    exact ⟨a, b, by rw [h]; simp⟩

theorem Index_single_of_not_mem (c : Nat) (s : Str) (h : c ∉ s) : Index s [c] = -1 :=
  (Index_eq_neg_one_iff s [c]).2 (fun hi => h ((singleton_infix_iff_mem c s).1 hi))

theorem Index_single_first (c : Nat) (t q : Str) (h : c ∉ t) :
    Index (t ++ c :: q) [c] = (t.length : Int) := by
  have h2 : ¬ [c] <:+: t ++ [c].dropLast := by
    simpa [singleton_infix_iff_mem] using h
  have := Index_first [c] t q h2
  simpa using this

theorem countLoop_single (c : Nat) (fuel : Nat) (s : Str) (h : s.length < fuel) :
    countLoop [c] fuel s = s.count c := by
  induction fuel generalizing s with
  | zero => omega
  | succ fuel ih =>
    unfold countLoop
    by_cases hc : c ∈ s
    · obtain ⟨t, q, e, hnt⟩ := List.eq_append_cons_of_mem hc
      subst e
      have hi := Index_single_first c t q hnt
      simp only [hi]
      have hne : ¬ ((t.length : Int) = -1) := by omega
      rw [if_neg hne]
      have hd : (t ++ c :: q).drop ((t.length : Int).toNat + [c].length) = q := by
        simp
      rw [hd, ih q (by simp at h; omega)]
      simp [List.count_cons, List.count_eq_zero_of_not_mem hnt]
      omega
    · have hi := Index_single_of_not_mem c s hc
      simp only [hi]
      simp [List.count_eq_zero_of_not_mem hc]

theorem Count_single (c : Nat) (s : Str) : Count s [c] = s.count c :=
  countLoop_single c (s.length + 1) s (Nat.lt_succ_self _)

theorem genSplit_of_not_mem (c : Nat) (n : Nat) (s : Str) (h : c ∉ s) :
    genSplit [c] n s = [s] := by
  cases n with
  | zero => rfl
  | succ n =>
    unfold genSplit
    simp [Index_single_of_not_mem c s h]

theorem genSplit_first (c : Nat) (n : Nat) (t q : Str) (h : c ∉ t) :
    genSplit [c] (n + 1) (t ++ c :: q) = t :: genSplit [c] n q := by
  rw [genSplit]
  have hi := Index_single_first c t q h
  simp only [hi]
  have hlt : ¬ ((t.length : Int) < 0) := by omega
  rw [if_neg hlt]
  simp

theorem Split_of_not_mem (c : Nat) (s : Str) (h : c ∉ s) : Split s [c] = [s] :=
  genSplit_of_not_mem c _ s h

theorem Split_first (c : Nat) (t q : Str) (h : c ∉ t) :
    Split (t ++ c :: q) [c] = t :: Split q [c] := by
  unfold Split
  rw [Count_single, Count_single]
  have : (t ++ c :: q).count c = q.count c + 1 := by
    simp [List.count_cons, List.count_eq_zero_of_not_mem h]
  rw [this, genSplit_first c _ t q h]

theorem Split_ne_nil (c : Nat) (s : Str) : Split s [c] ≠ [] := by
  by_cases hc : c ∈ s
  · obtain ⟨t, q, e, hnt⟩ := List.eq_append_cons_of_mem hc
    rw [e, Split_first c t q hnt]
    simp
  · rw [Split_of_not_mem c s hc]
    simp

theorem Join_cons_cons (a b : Str) (rest : List Str) (sep : Str) :
    Join (a :: b :: rest) sep = a ++ sep ++ Join (b :: rest) sep := by
  induction rest generalizing a b with
  | nil => simp [Join]
  | cons d rest ih =>
    have h1 := ih b d
    simp only [Join, List.flatMap_cons, List.append_assoc] at h1 ⊢

theorem Join_cons_of_ne_nil (a : Str) (l : List Str) (sep : Str) (h : l ≠ []) :
    Join (a :: l) sep = a ++ sep ++ Join l sep := by
  cases l with
  | nil => exact absurd rfl h
  | cons b rest => exact Join_cons_cons a b rest sep

theorem Join_eq_intercalate (l : List Str) (sep : Str) : Join l sep = sep.intercalate l := by
  induction l with
  | nil => rfl
  | cons a l ih =>
    cases l with
    | nil => simp [Join, List.intercalate]
    | cons b rest =>
      rw [Join_cons_cons, ih]
      simp [List.intercalate, List.intersperse]

theorem Join_Split_aux (c : Nat) (n : Nat) : ∀ q : Str, q.length ≤ n →
    Join (Split q [c]) [c] = q := by
  induction n with
  | zero =>
    intro q hq
    have : q = [] := List.length_eq_zero.1 (Nat.le_zero.1 hq)
    subst this
    rw [Split_of_not_mem c [] (by simp)]
    rfl
  | succ n ih =>
    intro q hq
    by_cases hc : c ∈ q
    · obtain ⟨t, r, e, hnt⟩ := List.eq_append_cons_of_mem hc
      subst e
      rw [Split_first c t r hnt, Join_cons_of_ne_nil _ _ _ (Split_ne_nil c r),
        ih r (by simp at hq; omega)]
      simp
    · rw [Split_of_not_mem c q hc]
      rfl

theorem Join_Split (c : Nat) (q : Str) : Join (Split q [c]) [c] = q :=
  Join_Split_aux c q.length q (le_refl _)

/-! ## `QueryEscape` byte by byte -/

theorem shouldEscape_eq_false_iff (c : Nat) : shouldEscape c = false ↔ unreserved c := by
  unfold shouldEscape unreserved
  split
  · simp; omega
  · split
    · simp; omega
    · simp; omega

theorem shouldEscape_space : shouldEscape 32 = true := by decide

theorem upperhex_getD (d : Nat) (h : d < 16) : upperhex.getD d 0 = hexDigit d := by
  interval_cases d <;> decide

theorem escapeLoop_eq_flatMap (q : Str) (hq : ∀ c ∈ q, c < 256) :
    escapeLoop q = q.flatMap queryEncodeByte := by
  induction q with
  | nil => rfl
  | cons c q ih =>
    have hc : c < 256 := hq c (by simp)
    have ih2 := ih (fun d hd => hq d (by simp [hd]))
    unfold escapeLoop
    simp only [List.flatMap_cons, queryEncodeByte]
    by_cases h32 : c = 32
    · subst h32
      have : ¬ unreserved 32 := by decide
      simp [this, ih2]
    · rw [if_neg h32]
      by_cases hs : shouldEscape c = true
      · have hu : ¬ unreserved c := by
          intro hu
          rw [(shouldEscape_eq_false_iff c).2 hu] at hs
          exact absurd hs (by simp)
        rw [if_pos hs, if_neg hu, if_neg h32, ih2]
        have e1 : c % 256 / 16 = c / 16 := by rw [Nat.mod_eq_of_lt hc]
        rw [e1, upperhex_getD (c / 16) (by omega), upperhex_getD (c % 16) (by omega)]
        rfl
      · have hs2 : shouldEscape c = false := by simpa using hs
        have hu : unreserved c := (shouldEscape_eq_false_iff c).1 hs2
        rw [if_neg hs, if_pos hu, ih2]
        rfl

theorem escapeLoop_of_counts_zero (s : Str)
    (h1 : (escapeCounts s).1 = 0) (h2 : (escapeCounts s).2 = 0) : escapeLoop s = s := by
  induction s with
  | nil => rfl
  | cons c s ih =>
    unfold escapeCounts at h1 h2
    by_cases hs : shouldEscape c = true
    · simp only [hs, if_true] at h1 h2
      by_cases h32 : c = 32
      · simp [h32] at h1
      · simp [h32] at h2
    · simp only [hs] at h1 h2
      have h32 : c ≠ 32 := by
        intro e; subst e; exact hs shouldEscape_space
      unfold escapeLoop
      rw [if_neg h32, if_neg hs, ih h1 h2]

theorem escapeLoop_of_hexCount_zero (s : Str) (h2 : (escapeCounts s).2 = 0) :
    escapeLoop s = s.map (fun c => if c = 32 then 43 else c) := by
  induction s with
  | nil => rfl
  | cons c s ih =>
    unfold escapeCounts at h2
    unfold escapeLoop
    by_cases h32 : c = 32
    · subst h32
      simp only [shouldEscape_space, if_true] at h2
      simp [ih h2]
    · by_cases hs : shouldEscape c = true
      · simp [hs, h32] at h2
      · simp only [hs] at h2
        simp [h32, hs, ih h2]

theorem escape_eq_escapeLoop (s : Str) : escape s = escapeLoop s := by
  unfold escape
  simp only
  split
  · rename_i h
    exact (escapeLoop_of_counts_zero s h.1 h.2).symm
  · split
    · rename_i h
      exact (escapeLoop_of_hexCount_zero s h).symm
    · rfl

theorem QueryEscape_eq_flatMap (q : Str) (hq : ∀ c ∈ q, c < 256) :
    QueryEscape q = q.flatMap queryEncodeByte := by
  unfold QueryEscape
  rw [escape_eq_escapeLoop, escapeLoop_eq_flatMap q hq]

/-! ## Facts about the pattern search -/

theorem lit_append {α : Type} (p s : Str) (k : Str → Option α) : lit p k (p ++ s) = k s := by
  unfold lit
  have hp : p.isPrefixOf (p ++ s) = true := (isPrefixOf_iff _ _).2 (List.prefix_append _ _)
  rw [if_pos hp]
  simp

theorem lit_none_of_mismatch {α : Type} (p s : Str) (k : Str → Option α) (h : ¬ p <+: s) :
    lit p k s = none := by
  unfold lit
  have hp : ¬ p.isPrefixOf s = true := fun hp => h ((isPrefixOf_iff _ _).1 hp)
  rw [if_neg hp]

/-- The lazy piece stops at the first place where the rest of the pattern
matches: when the rest fails after every shorter non-empty piece of `w` and
matches after `w`, the search gives that match. -/
theorem lazyDotPlus_first {α : Type} (k : Str → Str → Option α) (rest : Str) (r : α) :
    ∀ (w acc : Str), w ≠ [] → 10 ∉ w →
      (∀ w1 w2, w = w1 ++ w2 → w1 ≠ [] → w2 ≠ [] → k (acc ++ w1) (w2 ++ rest) = none) →
      k (acc ++ w) rest = some r →
      lazyDotPlus k acc (w ++ rest) = some r := by
  intro w
  induction w with
  | nil => intro acc h; exact absurd rfl h
  | cons c w ih =>
    intro acc _ hnl hfail hk
    have hc : c ≠ 10 := fun e => hnl (by simp [e])
    have e : c :: w ++ rest = c :: (w ++ rest) := rfl
    rw [e]
    unfold lazyDotPlus
    rw [if_neg hc]
    cases w with
    | nil =>
      simp only [List.nil_append]
      rw [hk]
    | cons d w =>
      have h1 : k (acc ++ [c]) (d :: w ++ rest) = none :=
        hfail [c] (d :: w) rfl (by simp) (by simp)
      rw [h1]
      simp only
      apply ih (acc ++ [c]) (by simp) (fun h => hnl (List.mem_cons_of_mem _ h))
      · intro w1 w2 e1 hw1 hw2
        have := hfail (c :: w1) w2 (by rw [e1]; rfl) (by simp) hw2
        simpa using this
      · simpa using hk

/-- When every match of the rest of the pattern satisfies `P`, and the rest
matches right after `w`, the lazy piece finds a match, and it satisfies `P`. -/
theorem lazyDotPlus_some {α : Type} (k : Str → Str → Option α) (P : α → Prop) (rest : Str)
    (hP : ∀ acc s r, k acc s = some r → P r) :
    ∀ (w acc : Str), w ≠ [] → 10 ∉ w → (∀ a, ∃ r, k a rest = some r) →
      ∃ r, lazyDotPlus k acc (w ++ rest) = some r ∧ P r := by
  intro w
  induction w with
  | nil => intro acc h; exact absurd rfl h
  | cons c w ih =>
    intro acc _ hnl hk
    have hc : c ≠ 10 := fun e => hnl (by simp [e])
    have e : c :: w ++ rest = c :: (w ++ rest) := rfl
    rw [e]
    unfold lazyDotPlus
    rw [if_neg hc]
    cases hkk : k (acc ++ [c]) (w ++ rest) with
    | some r => exact ⟨r, rfl, hP _ _ _ hkk⟩
    | none =>
      simp only
      cases w with
      | nil =>
        obtain ⟨r, hr⟩ := hk (acc ++ [c])
        simp only [List.nil_append] at hkk
        rw [hr] at hkk
        exact absurd hkk (by simp)
      | cons d w =>
        exact ih (acc ++ [c]) (by simp) (fun h => hnl (List.mem_cons_of_mem _ h)) hk

theorem imgPattern_none_of_no_img (s : Str) (h : ¬ bytes "<img" <+: s) : imgPattern s = none :=
  lit_none_of_mismatch _ _ _ h

theorem FindStringSubmatch_of_no_img (s : Str) (h : ¬ bytes "<img" <:+: s) :
    FindStringSubmatch s = [] := by
  induction s with
  | nil => rfl
  | cons c s ih =>
    rw [List.infix_cons_iff] at h
    unfold FindStringSubmatch
    rw [imgPattern_none_of_no_img (c :: s) (fun hp => h (Or.inl hp))]
    exact ih (fun hi => h (Or.inr hi))

theorem FindStringSubmatch_first (s g rest : Str) (hm : imgPattern s = some (g, rest)) :
    ∀ pre : Str, (∀ p1 p2, pre = p1 ++ p2 → p2 ≠ [] → imgPattern (p2 ++ s) = none) →
      FindStringSubmatch (pre ++ s) = [s.take (s.length - rest.length), g] := by
  intro pre
  induction pre with
  | nil =>
    intro _
    cases s with
    | nil =>
      have h0 : imgPattern [] = none := by decide
      rw [h0] at hm
      exact absurd hm (by simp)
    | cons c s =>
      simp only [List.nil_append]
      unfold FindStringSubmatch
      rw [hm]
  | cons c pre ih =>
    intro hfail
    have e : c :: pre ++ s = c :: (pre ++ s) := rfl
    rw [e]
    unfold FindStringSubmatch
    have h1 : imgPattern (c :: (pre ++ s)) = none := hfail [] (c :: pre) rfl (by simp)
    rw [h1]
    exact ih (fun p1 p2 e1 hne => hfail (c :: p1) p2 (by rw [e1]; rfl) hne)

/-! ## Facts about `handleTask` -/

theorem exists_first_occurrence (sub : Str) (hne : sub ≠ []) :
    ∀ s : Str, sub <:+: s → ∃ p r, s = p ++ sub ++ r ∧ ¬ sub <:+: p ++ sub.dropLast := by
  intro s
  induction s with
  | nil =>
    intro h
    exact absurd (List.eq_nil_of_infix_nil h) hne
  | cons c s ih =>
    intro h
    by_cases hp : sub <+: c :: s
    · obtain ⟨r, hr⟩ := hp
      refine ⟨[], r, by simpa using hr.symm, ?_⟩
      intro hi
      have h1 := hi.length_le
      have h2 : 0 < sub.length := List.length_pos.2 hne
      simp only [List.nil_append, List.length_dropLast] at h1
      omega
    · rcases List.infix_cons_iff.1 h with h1 | h1
      · exact absurd h1 hp
      · obtain ⟨p, r, e, hf⟩ := ih h1
        refine ⟨c :: p, r, by rw [e]; rfl, ?_⟩
        intro hi
        rcases List.infix_cons_iff.1 hi with h2 | h2
        · apply hp
          have h3 : c :: (p ++ sub.dropLast) <+: c :: s := by
            rw [e, List.append_assoc]
            apply (List.prefix_append_right_inj (c :: p)).2
            exact ( List.dropLast_prefix sub).trans (List.prefix_append _ _)
          exact h2.trans h3
        · exact hf h2

theorem handleTask_of_marker (fetch : Str → Fetch) (p rest : Str)
    (hfirst : ¬ marker <:+: p ++ marker.dropLast) :
    handleTask fetch (p ++ marker ++ rest) = Outcome.reply (getSearchUrl p) := by
  unfold handleTask
  simp only [Index_first marker p rest hfirst]
  have hne : (p.length : Int) ≠ -1 := by omega
  rw [if_pos hne]
  simp

/-- The dispatch of `handleTask` on a text without the marker that splits
into at least two tokens. -/
theorem handleTask_of_tokens (fetch : Str → Fetch) (text t0 t1 : Str) (rest : List Str)
    (hm : ¬ marker <:+: text) (hs : Split text space = t0 :: t1 :: rest) :
    handleTask fetch text =
      if t0 ∈ imgAliases then imgBranch fetch (Join (t1 :: rest) space)
      else if t0 ∈ movAliases then Outcome.reply (getMovSearchUrl (Join (t1 :: rest) space))
      else if t0 ∈ searchAliases then Outcome.reply (getSearchUrl (Join (t1 :: rest) space))
      else if t0 ∈ newsAliases then Outcome.reply (getNewsSearchUrl (Join (t1 :: rest) space))
      else if t0 ∈ wikiAliases then Outcome.reply (getWikiUrl t1)
      else Outcome.noReply := by
  unfold handleTask
  simp only [(Index_eq_neg_one_iff text marker).2 hm, hs]
  simp

theorem handleTask_of_one_token (fetch : Str → Fetch) (text : Str)
    (hm : ¬ marker <:+: text) (hs : (Split text space).length < 2) :
    handleTask fetch text = Outcome.noReply := by
  unfold handleTask
  simp only [(Index_eq_neg_one_iff text marker).2 hm]
  have : ¬ (Split text space).length ≥ 2 := by omega
  simp [this]

theorem mov_not_img : ∀ t ∈ movAliases, t ∉ imgAliases := by decide

theorem search_not_img_mov : ∀ t ∈ searchAliases, t ∉ imgAliases ∧ t ∉ movAliases := by decide

theorem news_not_earlier :
    ∀ t ∈ newsAliases, t ∉ imgAliases ∧ t ∉ movAliases ∧ t ∉ searchAliases := by decide

theorem wiki_not_earlier :
    ∀ t ∈ wikiAliases,
      t ∉ imgAliases ∧ t ∉ movAliases ∧ t ∉ searchAliases ∧ t ∉ newsAliases := by decide

theorem handleTask_img (fetch : Str → Fetch) (text t0 t1 : Str) (rest : List Str)
    (hm : ¬ marker <:+: text) (hs : Split text space = t0 :: t1 :: rest)
    (h0 : t0 ∈ imgAliases) :
    handleTask fetch text = imgBranch fetch (Join (t1 :: rest) space) := by
  rw [handleTask_of_tokens fetch text t0 t1 rest hm hs, if_pos h0]

theorem handleTask_mov (fetch : Str → Fetch) (text t0 t1 : Str) (rest : List Str)
    (hm : ¬ marker <:+: text) (hs : Split text space = t0 :: t1 :: rest)
    (h0 : t0 ∈ movAliases) :
    handleTask fetch text = Outcome.reply (getMovSearchUrl (Join (t1 :: rest) space)) := by
  rw [handleTask_of_tokens fetch text t0 t1 rest hm hs, if_neg (mov_not_img t0 h0), if_pos h0]

theorem handleTask_search (fetch : Str → Fetch) (text t0 t1 : Str) (rest : List Str)
    (hm : ¬ marker <:+: text) (hs : Split text space = t0 :: t1 :: rest)
    (h0 : t0 ∈ searchAliases) :
    handleTask fetch text = Outcome.reply (getSearchUrl (Join (t1 :: rest) space)) := by
  obtain ⟨h1, h2⟩ := search_not_img_mov t0 h0
  rw [handleTask_of_tokens fetch text t0 t1 rest hm hs, if_neg h1, if_neg h2, if_pos h0]

theorem handleTask_news (fetch : Str → Fetch) (text t0 t1 : Str) (rest : List Str)
    (hm : ¬ marker <:+: text) (hs : Split text space = t0 :: t1 :: rest)
    (h0 : t0 ∈ newsAliases) :
    handleTask fetch text = Outcome.reply (getNewsSearchUrl (Join (t1 :: rest) space)) := by
  obtain ⟨h1, h2, h3⟩ := news_not_earlier t0 h0
  rw [handleTask_of_tokens fetch text t0 t1 rest hm hs, if_neg h1, if_neg h2, if_neg h3,
    if_pos h0]

theorem handleTask_wiki (fetch : Str → Fetch) (text t0 t1 : Str) (rest : List Str)
    (hm : ¬ marker <:+: text) (hs : Split text space = t0 :: t1 :: rest)
    (h0 : t0 ∈ wikiAliases) :
    handleTask fetch text = Outcome.reply (getWikiUrl t1) := by
  obtain ⟨h1, h2, h3, h4⟩ := wiki_not_earlier t0 h0
  rw [handleTask_of_tokens fetch text t0 t1 rest hm hs, if_neg h1, if_neg h2, if_neg h3,
    if_neg h4, if_pos h0]

/-! ## The pattern on a well-formed tag -/

theorem srcq_dropLast : (bytes "src=" ++ [34]).dropLast = bytes "src=" := by decide

theorem img_dropLast : (bytes "<img").dropLast = bytes "<im" := by decide

/-- The pattern matched at a tag `<img X src="U" Z>`: the group is `U`. -/
theorem imgPattern_tag (X U Z post : Str)
    (hX : X ≠ []) (hXnl : 10 ∉ X) (hXsrc : ¬ (bytes "src=" ++ [34]) <:+: X ++ bytes "src=")
    (hU : U ≠ []) (hUnl : 10 ∉ U) (hUq : 34 ∉ U)
    (hZ : Z ≠ []) (hZnl : 10 ∉ Z) :
    ∃ rest, imgPattern
      (bytes "<img" ++ (X ++ ((bytes "src=" ++ [34]) ++ (U ++ ([34] ++ (Z ++ (bytes ">" ++ post)))))))
      = some (U, rest) := by
  -- the last lazy piece and the closing `>`
  have hP : ∀ (acc s : Str) (r : Str × Str),
      (fun _ => lit (bytes ">") (fun rest => some (U, rest))) acc s = some r → r.1 = U := by
    intro acc s r hr
    simp only [lit] at hr
    split at hr
    · simp only [Option.some.injEq] at hr
      rw [← hr]
    · exact absurd hr (by simp)
  have h3 : ∃ r, lazyDotPlus (fun _ => lit (bytes ">") (fun rest => some (U, rest))) []
      (Z ++ (bytes ">" ++ post)) = some r ∧ r.1 = U :=
    @lazyDotPlus_some (Str × Str) (fun _ => lit (bytes ">") (fun rest => some (U, rest)))
      (fun r => r.1 = U) (bytes ">" ++ post) hP Z [] hZ hZnl
      (fun _ => ⟨(U, post), lit_append _ _ _⟩)
  obtain ⟨⟨g, rest⟩, hr, hg⟩ := h3
  simp only at hg
  subst hg
  refine ⟨rest, ?_⟩
  -- the capture group
  have h2 : lazyDotPlus
      (fun g => lit [34]
        (lazyDotPlus (fun _ => lit (bytes ">") (fun rest => some (g, rest))) []))
      [] (g ++ ([34] ++ (Z ++ (bytes ">" ++ post)))) = some (g, rest) := by
    apply lazyDotPlus_first _ _ _ g [] hU hUnl
    · intro w1 w2 e _ hw2
      apply lit_none_of_mismatch
      intro hp
      cases w2 with
      | nil => exact hw2 rfl
      | cons d w2 =>
        have hd : d ∈ g := by rw [e]; simp
        obtain ⟨t, ht⟩ := hp
        simp only [List.cons_append, List.singleton_append, List.cons.injEq] at ht
        exact hUq (ht.1 ▸ hd)
    · simp only [List.nil_append]
      rw [lit_append]
      exact hr
  -- the first lazy piece
  unfold imgPattern
  rw [lit_append]
  apply lazyDotPlus_first _ _ _ X [] hX hXnl
  · intro w1 w2 e _ hw2
    apply lit_none_of_mismatch
    have hh : ¬ (bytes "src=" ++ [34]) <:+: X ++ (bytes "src=" ++ [34]).dropLast := by
      rw [srcq_dropLast]; exact hXsrc
    have := prefix_of_first (bytes "src=" ++ [34]) X
      (g ++ ([34] ++ (Z ++ (bytes ">" ++ post)))) hh w1 w2 e hw2
    simpa [List.append_assoc] using this
  · beta_reduce
    rw [lit_append]
    exact h2

theorem imgPattern_none_before (pre s : Str) (hpre : ¬ bytes "<img" <:+: pre ++ bytes "<im") :
    ∀ p1 p2, pre = p1 ++ p2 → p2 ≠ [] → imgPattern (p2 ++ (bytes "<img" ++ s)) = none := by
  intro p1 p2 e hne
  apply imgPattern_none_of_no_img
  have hh : ¬ bytes "<img" <:+: pre ++ (bytes "<img").dropLast := by
    rw [img_dropLast]; exact hpre
  have := prefix_of_first (bytes "<img") pre s hh p1 p2 e hne
  simpa [List.append_assoc] using this

theorem imgTag_in_body (pre X U Z post : Str) :
    pre ++ imgTag X U Z ++ post =
      pre ++ (bytes "<img" ++ (X ++ ((bytes "src=" ++ [34]) ++
        (U ++ ([34] ++ (Z ++ (bytes ">" ++ post))))))) := by
  simp only [imgTag, List.append_assoc]

/-- `FindStringSubmatch` on a body whose first `<img` opens a tag
`<img X src="U" Z>`: a match with the group `U`. -/
theorem FindStringSubmatch_tag (pre X U Z post : Str)
    (hpre : ¬ bytes "<img" <:+: pre ++ bytes "<im")
    (hX : X ≠ []) (hXnl : 10 ∉ X) (hXsrc : ¬ (bytes "src=" ++ [34]) <:+: X ++ bytes "src=")
    (hU : U ≠ []) (hUnl : 10 ∉ U) (hUq : 34 ∉ U)
    (hZ : Z ≠ []) (hZnl : 10 ∉ Z) :
    ∃ whole, FindStringSubmatch (pre ++ imgTag X U Z ++ post) = [whole, U] := by
  obtain ⟨rest, hm⟩ := imgPattern_tag X U Z post hX hXnl hXsrc hU hUnl hUq hZ hZnl
  rw [imgTag_in_body]
  exact ⟨_, FindStringSubmatch_first _ U rest hm pre (imgPattern_none_before pre _ hpre)⟩

theorem getOneImgUrl_of_body (fetch : Str → Fetch) (q body : Str)
    (hf : fetch (getImgSearchUrl q) = Fetch.ok body) :
    getOneImgUrl fetch q =
      if (FindStringSubmatch body).length = 2 then some ((FindStringSubmatch body).getD 1 [])
      else some [] := by
  unfold getOneImgUrl
  rw [hf]

/-! ## The claims -/

theorem replyAliases_eq :
    replyAliases = imgAliases ++ movAliases ++ searchAliases ++ newsAliases ++ wikiAliases := by
  decide

theorem mem_replyAliases (t : Str) :
    t ∈ replyAliases ↔
      t ∈ imgAliases ∨ t ∈ movAliases ∨ t ∈ searchAliases ∨ t ∈ newsAliases ∨ t ∈ wikiAliases := by
  rw [replyAliases_eq]
  simp only [List.mem_append]
  tauto

theorem imgBranch_of_ok (fetch : Str → Fetch) (q body : Str)
    (hf : fetch (getImgSearchUrl q) = Fetch.ok body) :
    ∃ r, imgBranch fetch q = Outcome.reply r := by
  have hu : ∃ u, getOneImgUrl fetch q = some u := by
    rw [getOneImgUrl_of_body fetch q body hf]
    split <;> exact ⟨_, rfl⟩
  obtain ⟨u, hu⟩ := hu
  unfold imgBranch
  rw [hu]
  simp only
  split <;> exact ⟨_, rfl⟩

/-- C1: a text that contains the marker is answered with `getSearchUrl p`, where
`p` is the part of the text before the first occurrence of the marker,
whatever the first token is, whatever follows the marker, and whatever the
fetch would do: no alias branch is taken. -/
theorem C1_marker_takes_priority (fetch : Str → Fetch) (text : Str) (h : marker <:+: text) :
    (∃ p rest, text = p ++ marker ++ rest ∧ ¬ marker <:+: p ++ marker.dropLast) ∧
    ∀ p rest, text = p ++ marker ++ rest → ¬ marker <:+: p ++ marker.dropLast →
      handleTask fetch text = Outcome.reply (getSearchUrl p) := by
  constructor
  · exact exists_first_occurrence marker (by decide) text h
  · intro p rest e hfirst
    rw [e]
    exact handleTask_of_marker fetch p rest hfirst

/-- C1 on the text `img 犬とは? bar`, with a fetch that would fail. -/
theorem C1_marker_takes_priority_witness :
    marker <:+: bytes "img 犬とは? bar" ∧
    handleTask (fun _ => Fetch.getError) (bytes "img 犬とは? bar")
      = Outcome.reply (getSearchUrl (bytes "img 犬")) :=
  ⟨by decide,
   (C1_marker_takes_priority (fun _ => Fetch.getError) (bytes "img 犬とは? bar") (by decide)).2
     (bytes "img 犬") (bytes " bar") (by decide) (by decide)⟩

/-- C2, as stated, fails in its count: no list of 22 aliases describes the
first tokens that are answered, because the 23 case labels of `handleTask` are
pairwise different and each of them is answered. -/
theorem C2_alias_count_counterexample :
    ¬ ∃ l : List Str, l.length = 22 ∧
      ∀ text, (∃ r, handleTask (fun _ => Fetch.ok []) text = Outcome.reply r) ↔
        (marker <:+: text ∨
          ∃ t0 t1 rest, Split text space = t0 :: t1 :: rest ∧ t0 ∈ l) := by
  rintro ⟨l, hl, h⟩
  have hall : ∀ a ∈ replyAliases,
      (handleTask (fun _ => Fetch.ok []) (a ++ bytes " x")).isReply = true ∧
      ¬ marker <:+: a ++ bytes " x" ∧
      Split (a ++ bytes " x") space = [a, bytes "x"] := by decide
  have hsub : replyAliases ⊆ l := by
    intro a ha
    obtain ⟨h1, h2, h3⟩ := hall a ha
    have hr : ∃ r, handleTask (fun _ => Fetch.ok []) (a ++ bytes " x") = Outcome.reply r := by
      cases ho : handleTask (fun _ => Fetch.ok []) (a ++ bytes " x") with
      | reply r => exact ⟨r, rfl⟩
      | noReply => rw [ho] at h1; exact absurd h1 (by decide)
      | panic => rw [ho] at h1; exact absurd h1 (by decide)
    rcases (h (a ++ bytes " x")).1 hr with hm | ⟨t0, t1, rest, hs, hmem⟩
    · exact absurd hm h2
    · rw [h3] at hs
      simp only [List.cons.injEq] at hs
      rw [hs.1]
      exact hmem
  have hnd : replyAliases.Nodup := by decide
  have hlen : replyAliases.length = 23 := by decide
  have := (hnd.subperm hsub).length_le
  omega

/-- C2, amended: the 23 aliases are pairwise different, and when the image
fetch succeeds, a text is answered if and only if it contains the marker or
splits on `" "` into at least two tokens the first of which is one of the 23
aliases; every other text gets no reply. -/
theorem C2_reply_iff (fetch : Str → Fetch) (text : Str)
    (hfetch : ∀ u, ∃ body, fetch u = Fetch.ok body) :
    replyAliases.length = 23 ∧ replyAliases.Nodup ∧
    ((∃ r, handleTask fetch text = Outcome.reply r) ↔
      (marker <:+: text ∨
        ∃ t0 t1 rest, Split text space = t0 :: t1 :: rest ∧ t0 ∈ replyAliases)) ∧
    (¬ (marker <:+: text ∨
        ∃ t0 t1 rest, Split text space = t0 :: t1 :: rest ∧ t0 ∈ replyAliases) →
      handleTask fetch text = Outcome.noReply) := by
  have hyes : (marker <:+: text ∨
      ∃ t0 t1 rest, Split text space = t0 :: t1 :: rest ∧ t0 ∈ replyAliases) →
      ∃ r, handleTask fetch text = Outcome.reply r := by
    rintro (hm | ⟨t0, t1, rest, hs, h0⟩)
    · obtain ⟨p, r, e, hfirst⟩ := exists_first_occurrence marker (by decide) text hm
      exact ⟨_, by rw [e]; exact handleTask_of_marker fetch p r hfirst⟩
    · by_cases hm : marker <:+: text
      · obtain ⟨p, r, e, hfirst⟩ := exists_first_occurrence marker (by decide) text hm
        exact ⟨_, by rw [e]; exact handleTask_of_marker fetch p r hfirst⟩
      · rcases (mem_replyAliases t0).1 h0 with h | h | h | h | h
        · rw [handleTask_img fetch text t0 t1 rest hm hs h]
          obtain ⟨body, hb⟩ := hfetch (getImgSearchUrl (Join (t1 :: rest) space))
          exact imgBranch_of_ok fetch _ body hb
        · exact ⟨_, handleTask_mov fetch text t0 t1 rest hm hs h⟩
        · exact ⟨_, handleTask_search fetch text t0 t1 rest hm hs h⟩
        · exact ⟨_, handleTask_news fetch text t0 t1 rest hm hs h⟩
        · exact ⟨_, handleTask_wiki fetch text t0 t1 rest hm hs h⟩
  have hno : ¬ (marker <:+: text ∨
      ∃ t0 t1 rest, Split text space = t0 :: t1 :: rest ∧ t0 ∈ replyAliases) →
      handleTask fetch text = Outcome.noReply := by
    intro hn
    have hm : ¬ marker <:+: text := fun hm => hn (Or.inl hm)
    by_cases hlen : (Split text space).length < 2
    · exact handleTask_of_one_token fetch text hm hlen
    · obtain ⟨t0, t1, rest, hs⟩ : ∃ t0 t1 rest, Split text space = t0 :: t1 :: rest := by
        cases hsp : Split text space with
        | nil => rw [hsp] at hlen; simp at hlen
        | cons a l =>
          cases l with
          | nil => rw [hsp] at hlen; simp at hlen
          | cons b l => exact ⟨a, b, l, rfl⟩
      have h0 : t0 ∉ replyAliases := fun h0 => hn (Or.inr ⟨t0, t1, rest, hs, h0⟩)
      rw [mem_replyAliases] at h0
      rw [handleTask_of_tokens fetch text t0 t1 rest hm hs]
      simp only [not_or] at h0
      rw [if_neg h0.1, if_neg h0.2.1, if_neg h0.2.2.1, if_neg h0.2.2.2.1, if_neg h0.2.2.2.2]
  refine ⟨by decide, by decide, ⟨?_, hyes⟩, hno⟩
  rintro ⟨r, hr⟩
  by_contra hn
  rw [hno hn] at hr
  exact absurd hr (by simp)

/-- C2 on the texts `hello` (one token) and `Img foo` (no alias): no reply. -/
theorem C2_reply_iff_witness :
    (∀ u : Str, ∃ body, (fun _ => Fetch.ok (bytes "<html></html>")) u = Fetch.ok body) ∧
    handleTask (fun _ => Fetch.ok (bytes "<html></html>")) (bytes "hello") = Outcome.noReply ∧
    handleTask (fun _ => Fetch.ok (bytes "<html></html>")) (bytes "Img foo") = Outcome.noReply :=
  ⟨fun _ => ⟨_, rfl⟩,
   (C2_reply_iff (fun _ => Fetch.ok (bytes "<html></html>")) (bytes "hello")
      (fun _ => ⟨_, rfl⟩)).2.2.2
      (by
        rintro (h | ⟨t0, t1, rest, hs, _⟩)
        · exact absurd h (by decide)
        · have e : Split (bytes "hello") space = [bytes "hello"] := by decide
          rw [e] at hs
          simp at hs),
   by decide⟩

/-- C3: a text without the marker that splits on `" "` into `t0, t1, ..., tn`
with `n ≥ 1` is answered, for `Q` the tokens `t1, ..., tn` joined with single
spaces, with `getSearchUrl Q` when `t0` is a web-search alias, with
`getSearchUrl Q` followed by `&tbm=vid` when it is a video alias, and with
`getSearchUrl Q` followed by `&tbm=nws` when it is a news alias. -/
theorem C3_search_video_news (fetch : Str → Fetch) (text t0 t1 : Str) (rest : List Str)
    (hm : ¬ marker <:+: text) (hs : Split text space = t0 :: t1 :: rest) :
    (t0 ∈ [bytes "search", bytes "S", bytes "ggr", bytes "検索", bytes "ググる"] →
      handleTask fetch text
        = Outcome.reply (getSearchUrl ((bytes " ").intercalate (t1 :: rest)))) ∧
    (t0 ∈ [bytes "mov", bytes "MOV", bytes "M", bytes "動画"] →
      handleTask fetch text
        = Outcome.reply (getSearchUrl ((bytes " ").intercalate (t1 :: rest)) ++ bytes "&tbm=vid")) ∧
    (t0 ∈ [bytes "news", bytes "News", bytes "ニュース"] →
      handleTask fetch text
        = Outcome.reply (getSearchUrl ((bytes " ").intercalate (t1 :: rest)) ++ bytes "&tbm=nws")) := by
  have hj : (bytes " ").intercalate (t1 :: rest) = Join (t1 :: rest) space :=
    (Join_eq_intercalate (t1 :: rest) space).symm
  rw [hj]
  refine ⟨fun h => ?_, fun h => ?_, fun h => ?_⟩
  · exact handleTask_search fetch text t0 t1 rest hm hs h
  · exact handleTask_mov fetch text t0 t1 rest hm hs h
  · exact handleTask_news fetch text t0 t1 rest hm hs h

/-- C3 on the text `S foo bar`: the query is `foo bar`. -/
theorem C3_search_video_news_witness :
    ¬ marker <:+: bytes "S foo bar" ∧
    Split (bytes "S foo bar") space = [bytes "S", bytes "foo", bytes "bar"] ∧
    handleTask (fun _ => Fetch.getError) (bytes "S foo bar")
      = Outcome.reply (getSearchUrl ((bytes " ").intercalate [bytes "foo", bytes "bar"])) ∧
    (bytes " ").intercalate [bytes "foo", bytes "bar"] = bytes "foo bar" :=
  ⟨by decide, by decide,
   (C3_search_video_news (fun _ => Fetch.getError) (bytes "S foo bar") (bytes "S")
      (bytes "foo") [bytes "bar"] (by decide) (by decide)).1 (by decide),
   by decide⟩

/-- C4: a text without the marker that splits on `" "` into at least two
tokens, the first a wiki alias, is answered with
`https://ja.wikipedia.org/wiki/` followed by the second token only; the tokens
after the second do not reach the reply. -/
theorem C4_wiki_second_token (fetch : Str → Fetch) (text t0 t1 : Str) (rest : List Str)
    (hm : ¬ marker <:+: text) (hs : Split text space = t0 :: t1 :: rest)
    (h0 : t0 ∈ [bytes "wikipedia", bytes "wiki", bytes "Wikipedia", bytes "Wiki", bytes "W",
      bytes "ウィキペディア", bytes "ウィキ"]) :
    handleTask fetch text = Outcome.reply (bytes "https://ja.wikipedia.org/wiki/" ++ t1) :=
  handleTask_wiki fetch text t0 t1 rest hm hs h0

/-- C4 on the text `wiki 犬 bar`: `bar` is dropped. -/
theorem C4_wiki_second_token_witness :
    ¬ marker <:+: bytes "wiki 犬 bar" ∧
    Split (bytes "wiki 犬 bar") space = [bytes "wiki", bytes "犬", bytes "bar"] ∧
    handleTask (fun _ => Fetch.getError) (bytes "wiki 犬 bar")
      = Outcome.reply (bytes "https://ja.wikipedia.org/wiki/" ++ bytes "犬") :=
  ⟨by decide, by decide,
   C4_wiki_second_token (fun _ => Fetch.getError) (bytes "wiki 犬 bar") (bytes "wiki")
     (bytes "犬") [bytes "bar"] (by decide) (by decide) (by decide)⟩

/-- C5, as stated, fails: the body `<img src="http://ex.com/a.jpg">` holds an
`img` tag with a `src` attribute, yet the pattern asks for at least one
character between the closing quote and `>`, so nothing matches,
`getOneImgUrl` returns the empty string and the reply is the image-search URL,
not the `src` value. -/
theorem C5_src_last_attribute_counterexample :
    getOneImgUrl (fun _ => Fetch.ok (imgTag (bytes " ") (bytes "http://ex.com/a.jpg") []))
        (bytes "犬") = some [] ∧
    handleTask (fun _ => Fetch.ok (imgTag (bytes " ") (bytes "http://ex.com/a.jpg") []))
        (bytes "img 犬") = Outcome.reply (getImgSearchUrl (bytes "犬")) ∧
    handleTask (fun _ => Fetch.ok (imgTag (bytes " ") (bytes "http://ex.com/a.jpg") []))
        (bytes "img 犬") ≠ Outcome.reply (bytes "http://ex.com/a.jpg") ∧
    imgTag (bytes " ") (bytes "http://ex.com/a.jpg") []
      = bytes "<img src=" ++ [34] ++ bytes "http://ex.com/a.jpg" ++ [34] ++ bytes ">" := by
  decide

/-- C5, amended: when the fetched body is `pre <img X src="U" Z> post`, where
`<img` does not start inside `pre`, the pieces `X`, `U`, `Z` are not empty and
hold no newline, `src="` does not occur in `X` followed by `src=`, and `U`
holds no double quote, then `getOneImgUrl` returns `U`; and when `U` is valid
UTF-8, so that the text message carries it as it is, the image branch of
`handleTask` replies with `U` unchanged. -/
theorem C5_first_img_src (fetch : Str → Fetch) (q pre X U Z post : Str)
    (hf : fetch (getImgSearchUrl q) = Fetch.ok (pre ++ imgTag X U Z ++ post))
    (hpre : ¬ bytes "<img" <:+: pre ++ bytes "<im")
    (hX : X ≠ []) (hXnl : 10 ∉ X) (hXsrc : ¬ (bytes "src=" ++ [34]) <:+: X ++ bytes "src=")
    (hU : U ≠ []) (hUnl : 10 ∉ U) (hUq : 34 ∉ U)
    (hZ : Z ≠ []) (hZnl : 10 ∉ Z) :
    getOneImgUrl fetch q = some U ∧
    (validUTF8 U = true →
      imgBranch fetch q = Outcome.reply U ∧
      ∀ text t0 t1 rest, ¬ marker <:+: text → Split text space = t0 :: t1 :: rest →
        t0 ∈ imgAliases → Join (t1 :: rest) space = q →
        handleTask fetch text = Outcome.reply U) := by
  obtain ⟨whole, hw⟩ := FindStringSubmatch_tag pre X U Z post hpre hX hXnl hXsrc hU hUnl hUq hZ hZnl
  have h1 : getOneImgUrl fetch q = some U := by
    rw [getOneImgUrl_of_body fetch q _ hf, hw]
    simp
  have h2 : imgBranch fetch q = Outcome.reply U := by
    unfold imgBranch
    rw [h1]
    simp only
    rw [if_pos hU]
  refine ⟨h1, fun _ => ⟨h2, ?_⟩⟩
  intro text t0 t1 rest hm hs h0 hq
  rw [handleTask_img fetch text t0 t1 rest hm hs h0, hq, h2]

/-- C5 on a page that holds the tag
`<img class="x" src="http://ex.com/a.jpg" alt="y">`. -/
theorem C5_first_img_src_witness :
    validUTF8 (bytes "http://ex.com/a.jpg") = true ∧
    handleTask
      (fun _ => Fetch.ok
        (bytes "<html><p>" ++
          imgTag (bytes " class=" ++ [34] ++ bytes "x" ++ [34] ++ bytes " ")
            (bytes "http://ex.com/a.jpg") (bytes " alt=" ++ [34] ++ bytes "y" ++ [34]) ++
          bytes "</p></html>"))
      (bytes "画像 犬") = Outcome.reply (bytes "http://ex.com/a.jpg") :=
  ⟨by decide,
   ((C5_first_img_src
    (fun _ => Fetch.ok
        (bytes "<html><p>" ++
          imgTag (bytes " class=" ++ [34] ++ bytes "x" ++ [34] ++ bytes " ")
            (bytes "http://ex.com/a.jpg") (bytes " alt=" ++ [34] ++ bytes "y" ++ [34]) ++
          bytes "</p></html>"))
    (bytes "犬") (bytes "<html><p>") (bytes " class=" ++ [34] ++ bytes "x" ++ [34] ++ bytes " ")
    (bytes "http://ex.com/a.jpg") (bytes " alt=" ++ [34] ++ bytes "y" ++ [34]) (bytes "</p></html>")
    rfl (by decide) (by decide) (by decide) (by decide) (by decide) (by decide) (by decide)
    (by decide) (by decide)).2 (by decide)).2
    (bytes "画像 犬") (bytes "画像") (bytes "犬") [] (by decide) (by decide) (by decide)
    (by decide)⟩

/-- C6: when the fetch for the query `q` succeeds with a body that does not
contain `<img`, `getOneImgUrl` returns the empty string and the image branch
of `handleTask` replies with `getImgSearchUrl q`, which is `getSearchUrl q`
followed by `&tbm=isch&tbs=ift:jpg`. -/
theorem C6_no_img_falls_back (fetch : Str → Fetch) (q body : Str)
    (hf : fetch (getImgSearchUrl q) = Fetch.ok body) (hno : ¬ bytes "<img" <:+: body) :
    getOneImgUrl fetch q = some [] ∧
    imgBranch fetch q = Outcome.reply (getImgSearchUrl q) ∧
    getImgSearchUrl q = getSearchUrl q ++ bytes "&tbm=isch&tbs=ift:jpg" ∧
    ∀ text t0 t1 rest, ¬ marker <:+: text → Split text space = t0 :: t1 :: rest →
      t0 ∈ imgAliases → Join (t1 :: rest) space = q →
      handleTask fetch text = Outcome.reply (getImgSearchUrl q) := by
  have h1 : getOneImgUrl fetch q = some [] := by
    rw [getOneImgUrl_of_body fetch q body hf, FindStringSubmatch_of_no_img body hno]
    simp
  have h2 : imgBranch fetch q = Outcome.reply (getImgSearchUrl q) := by
    unfold imgBranch
    rw [h1]
    simp
  refine ⟨h1, h2, rfl, ?_⟩
  intro text t0 t1 rest hm hs h0 hq
  rw [handleTask_img fetch text t0 t1 rest hm hs h0, hq, h2]

/-- C6 on a page without any image, for the text `img 犬 bar`. -/
theorem C6_no_img_falls_back_witness :
    ¬ bytes "<img" <:+: bytes "<html><body>none</body></html>" ∧
    handleTask (fun _ => Fetch.ok (bytes "<html><body>none</body></html>")) (bytes "img 犬 bar")
      = Outcome.reply (getImgSearchUrl (bytes "犬 bar")) :=
  ⟨by decide,
   (C6_no_img_falls_back (fun _ => Fetch.ok (bytes "<html><body>none</body></html>"))
      (bytes "犬 bar") (bytes "<html><body>none</body></html>") rfl (by decide)).2.2.2
      (bytes "img 犬 bar") (bytes "img") (bytes "犬") [bytes "bar"] (by decide) (by decide)
      (by decide) (by decide)⟩

/-- C7, as stated, fails: when `client.Get` or `ioutil.ReadAll` fails,
`getOneImgUrl` panics and the handler is aborted; no reply is produced, the
fallback URL is not sent. -/
theorem C7_fetch_failure_counterexample :
    handleTask (fun _ => Fetch.getError) (bytes "img 犬") = Outcome.panic ∧
    handleTask (fun _ => Fetch.readError) (bytes "img 犬") = Outcome.panic ∧
    handleTask (fun _ => Fetch.getError) (bytes "img 犬")
      ≠ Outcome.reply (getImgSearchUrl (bytes "犬")) := by
  decide

/-- C7, amended: when the outbound fetch for the image query `q` fails (the
GET or the read of its body), `getOneImgUrl` panics, and the image branch of
`handleTask` is aborted by that panic: it produces no reply. -/
theorem C7_fetch_failure_panics (fetch : Str → Fetch) (q : Str)
    (hf : fetch (getImgSearchUrl q) = Fetch.getError ∨
      fetch (getImgSearchUrl q) = Fetch.readError) :
    getOneImgUrl fetch q = none ∧
    imgBranch fetch q = Outcome.panic ∧
    ∀ text t0 t1 rest, ¬ marker <:+: text → Split text space = t0 :: t1 :: rest →
      t0 ∈ imgAliases → Join (t1 :: rest) space = q →
      handleTask fetch text = Outcome.panic := by
  have h1 : getOneImgUrl fetch q = none := by
    unfold getOneImgUrl
    rcases hf with hf | hf <;> rw [hf]
  have h2 : imgBranch fetch q = Outcome.panic := by
    unfold imgBranch
    rw [h1]
  refine ⟨h1, h2, ?_⟩
  intro text t0 t1 rest hm hs h0 hq
  rw [handleTask_img fetch text t0 t1 rest hm hs h0, hq, h2]

/-- C7 on the text `IMG 犬 bar` when reading the body fails. -/
theorem C7_fetch_failure_panics_witness :
    handleTask (fun _ => Fetch.readError) (bytes "IMG 犬 bar") = Outcome.panic :=
  (C7_fetch_failure_panics (fun _ => Fetch.readError) (bytes "犬 bar") (Or.inr rfl)).2.2
    (bytes "IMG 犬 bar") (bytes "IMG") (bytes "犬") [bytes "bar"] (by decide) (by decide)
    (by decide) (by decide)

/-- C8, as stated, fails on the space: `getSearchUrl "a b"` ends in `a+b`, while
percent-encoding every byte that is not unreserved would end in `a%20b`. -/
theorem C8_space_counterexample :
    getSearchUrl (bytes "a b")
      = bytes "http://www.google.co.jp/search?hl=ja&source=hp&q=" ++ bytes "a+b" ∧
    specPercentEncode (bytes "a b") = bytes "a%20b" ∧
    getSearchUrl (bytes "a b")
      ≠ bytes "http://www.google.co.jp/search?hl=ja&source=hp&q=" ++
          specPercentEncode (bytes "a b") := by
  decide

/-- C8, amended: for every byte string `q`, `getSearchUrl q` is the fixed prefix
followed by the encoding of `q` byte by byte: an ASCII letter, a digit, `-`,
`_`, `.` or `~` is copied, the space becomes `+`, and every other byte becomes
`%` and its two upper-case hexadecimal digits. -/
theorem C8_query_encoding (q : Str) (hq : ∀ c ∈ q, c < 256) :
    getSearchUrl q =
      bytes "http://www.google.co.jp/search?hl=ja&source=hp&q=" ++ q.flatMap queryEncodeByte := by
  unfold getSearchUrl
  rw [QueryEscape_eq_flatMap q hq]

/-- C8 on the query `犬 a-b/c`. -/
theorem C8_query_encoding_witness :
    (∀ c ∈ bytes "犬 a-b/c", c < 256) ∧
    getSearchUrl (bytes "犬 a-b/c") =
      bytes "http://www.google.co.jp/search?hl=ja&source=hp&q=" ++
        (bytes "犬 a-b/c").flatMap queryEncodeByte ∧
    (bytes "犬 a-b/c").flatMap queryEncodeByte = bytes "%E7%8A%AC+a-b%2Fc" :=
  ⟨by decide, C8_query_encoding (bytes "犬 a-b/c") (by decide), by decide⟩

/-- C9: `getWikiUrl q` is `https://ja.wikipedia.org/wiki/` followed by `q` byte
for byte, nothing encoded; `foo bar` keeps its space. -/
theorem C9_wiki_verbatim (q : Str) :
    getWikiUrl q = bytes "https://ja.wikipedia.org/wiki/" ++ q ∧
    (getWikiUrl q).drop 30 = q ∧
    getWikiUrl (bytes "foo bar") = bytes "https://ja.wikipedia.org/wiki/foo bar" := by
  refine ⟨rfl, ?_, by decide⟩
  have h30 : (bytes "https://ja.wikipedia.org/wiki/").length = 30 := by decide
  unfold getWikiUrl
  rw [← h30, List.drop_left]

/-- C10: for a text `t0 ++ " " ++ q` whose part `t0` before the first space
holds no space, the split on `" "` is `t0` followed by the split of `q`,
joining all tokens but the first with `" "` gives back `q`, the part after the
first space, unchanged, and the first token, a space and that query make up the
text.  So, without the marker, the image, video, web and news branches work
on `q` itself. -/
theorem C10_query_is_rest_of_text (fetch : Str → Fetch) (t0 q : Str) (h : 32 ∉ t0) :
    Split (t0 ++ bytes " " ++ q) (bytes " ") = t0 :: Split q (bytes " ") ∧
    Join ((Split (t0 ++ bytes " " ++ q) (bytes " ")).drop 1) (bytes " ") = q ∧
    (Split (t0 ++ bytes " " ++ q) (bytes " ")).getD 0 [] ++ bytes " " ++
      Join ((Split (t0 ++ bytes " " ++ q) (bytes " ")).drop 1) (bytes " ") = t0 ++ bytes " " ++ q ∧
    (¬ marker <:+: t0 ++ bytes " " ++ q →
      (t0 ∈ imgAliases → handleTask fetch (t0 ++ bytes " " ++ q) = imgBranch fetch q) ∧
      (t0 ∈ movAliases →
        handleTask fetch (t0 ++ bytes " " ++ q) = Outcome.reply (getMovSearchUrl q)) ∧
      (t0 ∈ searchAliases →
        handleTask fetch (t0 ++ bytes " " ++ q) = Outcome.reply (getSearchUrl q)) ∧
      (t0 ∈ newsAliases →
        handleTask fetch (t0 ++ bytes " " ++ q) = Outcome.reply (getNewsSearchUrl q))) := by
  have hsp : bytes " " = [32] := by decide
  have e : t0 ++ bytes " " ++ q = t0 ++ 32 :: q := by rw [hsp]; simp
  have hs : Split (t0 ++ bytes " " ++ q) (bytes " ") = t0 :: Split q (bytes " ") := by
    rw [e, hsp]; exact Split_first 32 t0 q h
  have hj : Join (Split q (bytes " ")) (bytes " ") = q := by
    rw [hsp]; exact Join_Split 32 q
  refine ⟨hs, ?_, ?_, ?_⟩
  · rw [hs]; exact hj
  · rw [hs]
    simp only [List.getD_cons_zero, List.drop_succ_cons, List.drop_zero]
    rw [hj]
  · intro hm
    obtain ⟨t1, rest, hq⟩ : ∃ t1 rest, Split q (bytes " ") = t1 :: rest := by
      cases hsq : Split q (bytes " ") with
      | nil => rw [hsp] at hsq; exact absurd hsq (Split_ne_nil 32 q)
      | cons a l => exact ⟨a, l, rfl⟩
    have hs2 : Split (t0 ++ bytes " " ++ q) space = t0 :: t1 :: rest := by
      rw [← hq]; exact hs
    have hj2 : Join (t1 :: rest) space = q := by
      rw [← hq]; exact hj
    refine ⟨fun h0 => ?_, fun h0 => ?_, fun h0 => ?_, fun h0 => ?_⟩
    · rw [handleTask_img fetch _ t0 t1 rest hm hs2 h0, hj2]
    · rw [handleTask_mov fetch _ t0 t1 rest hm hs2 h0, hj2]
    · rw [handleTask_search fetch _ t0 t1 rest hm hs2 h0, hj2]
    · rw [handleTask_news fetch _ t0 t1 rest hm hs2 h0, hj2]

/-- C10 on the text `S  foo`, with two spaces: the query is ` foo`. -/
theorem C10_query_is_rest_of_text_witness :
    32 ∉ bytes "S" ∧
    Join ((Split (bytes "S" ++ bytes " " ++ bytes " foo") (bytes " ")).drop 1) (bytes " ")
      = bytes " foo" ∧
    bytes "S" ++ bytes " " ++ bytes " foo" = bytes "S  foo" ∧
    handleTask (fun _ => Fetch.getError) (bytes "S" ++ bytes " " ++ bytes " foo")
      = Outcome.reply (getSearchUrl (bytes " foo")) :=
  ⟨by decide,
   (C10_query_is_rest_of_text (fun _ => Fetch.getError) (bytes "S") (bytes " foo")
      (by decide)).2.1,
   by decide,
   ((C10_query_is_rest_of_text (fun _ => Fetch.getError) (bytes "S") (bytes " foo")
      (by decide)).2.2.2 (by decide)).2.2.1 (by decide)⟩
end LineBot
